import Mathlib

/-!
# Verification development for bfanselow/GO

Shallow embedding of three Go programs:

* `conc_channels.go` : random-string helpers, `RandomInt`, `worker`, and the
  spawn loop and select loop of `main`;
* `git_api.go` : the argument handling of `main`;
* `LEARN/struct_iterate.go` : `GetTotalWeight`, `GetTotalHeight`, `GetTotals`.

Conventions.

* A Go `int` is a 64-bit two's complement integer.  It is embedded as an `Int`
  and every arithmetic operation of the source is followed by `wrapInt`.
* A Go `string` is its sequence of bytes, `List UInt8`.
* A panic is the result `none`.
* A random source (`*rand.Rand`, or the global source of `math/rand`) is the
  infinite sequence of raw values it is going to produce.  `Intn n` reduces the
  next raw value modulo `n`, so every value of `[0, n)` is a possible outcome.
-/

namespace GoRepo

/-! ## Go integers and strings -/

/-- Largest value of a Go `int` (64 bit). -/
def maxInt : Int := 9223372036854775807

/-- Smallest value of a Go `int` (64 bit). -/
def minInt : Int := -9223372036854775808

/-- Two's complement wrap-around of a mathematical integer to a Go `int`. -/
def wrapInt (x : Int) : Int :=
  (x + 9223372036854775808) % 18446744073709551616 - 9223372036854775808

/-- The integer is a value of the Go type `int`. -/
def IsInt (x : Int) : Prop := minInt ≤ x ∧ x ≤ maxInt

instance (x : Int) : Decidable (IsInt x) := by
  unfold IsInt; infer_instance

/-- A Go string: an immutable sequence of bytes. -/
abbrev GoString := List UInt8

/-- Bytes of an ASCII string literal of the source. -/
def lit (s : String) : GoString := s.toList.map (fun c => UInt8.ofNat c.toNat)

/-- Go `s[j]` for an `int` index: panics when the index is out of range. -/
def byteAt (s : GoString) (j : Int) : Option UInt8 :=
  if j < 0 then none else s[j.toNat]?

/-! ## conc_channels.go : constants -/

/-- Source: `Num_workers = 3`. -/
def Num_workers : Int := 3

/-- Source: `alphanumset`. -/
def alphanumset : GoString :=
  lit "abcdefghijklmnopqrstuvwxyzABCDEFGHIJKLMNOPQRSTUVWXYZ0123456789"

/-- Source: `alphaset`. -/
def alphaset : GoString := lit "abcdefghijklmnopqrstuvwxyzABCDEFGHIJKLMNOPQRSTUVWXYZ"

/-- Source: `alphacapset`. -/
def alphacapset : GoString := lit "ABCDEFGHIJKLMNOPQRSTUVWXYZ"

/-- Source: `numset`. -/
def numset : GoString := lit "0123456789"

/-! ## conc_channels.go : the random source -/

/-- A random source: the sequence of raw values it will produce. -/
abbrev RandSrc := Nat → Nat

/-- The source after one raw value has been consumed. -/
def RandSrc.tail (g : RandSrc) : RandSrc := fun k => g (k + 1)

/-- Go `(*rand.Rand).Intn(n)` and `rand.Intn(n)`: a value of `[0, n)`; panics
when `n <= 0`. -/
def Intn (g : RandSrc) (n : Int) : Option (Int × RandSrc) :=
  if n ≤ 0 then none else some ((g 0 : Int) % n, g.tail)

/-! ## conc_channels.go : random strings and integers -/

/-- The loop `for i := range b { b[i] = charset[seededRand.Intn(len(charset))] }`
of `StringWithCharset`, for the `k` positions that remain to be filled. -/
def fillLoop (charset : GoString) : Nat → RandSrc → Option (GoString × RandSrc)
  | 0, g => some ([], g)
  | k + 1, g =>
    match Intn g (charset.length : Int) with
    | none => none
    | some (j, g1) =>
      match byteAt charset j with
      | none => none
      | some c =>
        match fillLoop charset k g1 with
        | none => none
        | some (rest, g2) => some (c :: rest, g2)

/-- Source: `StringWithCharset(length, charset)`, drawing from `seededRand`, whose
state is threaded explicitly.  `make([]byte, length)` panics for a negative
length; memory is taken to be unbounded. -/
def StringWithCharset (g : RandSrc) (length : Int) (charset : GoString) :
    Option (GoString × RandSrc) :=
  if length < 0 then none else fillLoop charset length.toNat g

/-- Source: `RandomAlphaString`. -/
def RandomAlphaString (g : RandSrc) (length : Int) : Option (GoString × RandSrc) :=
  StringWithCharset g length alphaset

/-- Source: `RandomAlphaNumString`. -/
def RandomAlphaNumString (g : RandSrc) (length : Int) : Option (GoString × RandSrc) :=
  StringWithCharset g length alphanumset

/-- Source: `RandomAlphaCapString`. -/
def RandomAlphaCapString (g : RandSrc) (length : Int) : Option (GoString × RandSrc) :=
  StringWithCharset g length alphacapset

/-- Source: `RandomNumString`. -/
def RandomNumString (g : RandSrc) (length : Int) : Option (GoString × RandSrc) :=
  StringWithCharset g length numset

/-- Source: `RandomInt(min, max)`.  `rand.Seed(time.Now()...)` replaces the state of
the global source by one that depends on the clock; `g` is that fresh state.  The
result is `rand.Intn(max-min) + min` in `int` arithmetic. -/
def RandomInt (g : RandSrc) (min max : Int) : Option Int :=
  match Intn g (wrapInt (max - min)) with
  | none => none
  | some (r, _) => some (wrapInt (r + min))

/-! ## conc_channels.go : worker -/

/-- A completed channel send of a worker: on the data channel or on the control
channel. -/
inductive Send where
  | data (msg : GoString)
  | control (wname : GoString)
  deriving DecidableEq

/-- Decimal digits of a natural number, as bytes. -/
def natDigits (n : Nat) : GoString := (Nat.toDigits 10 n).map (fun c => UInt8.ofNat c.toNat)

/-- Go `strconv.Itoa`. -/
def Itoa (i : Int) : GoString :=
  if i < 0 then lit "-" ++ natDigits i.natAbs else natDigits i.toNat

/-- Source: `fmt.Sprintf("[id:%s]: msg-%s: (%s)", wname, strconv.Itoa(i), random_str)`. -/
def formatMsg (wname : GoString) (i : Int) (random_str : GoString) : GoString :=
  lit "[id:" ++ wname ++ lit "]: msg-" ++ Itoa i ++ lit ": (" ++ random_str ++ lit ")"

/-- Control point of a `worker` goroutine.  Sleeping and logging do not touch the
channels and are left out. -/
inductive WState where
  /-- at the loop test `i <= limit` -/
  | loop (i : Int)
  /-- blocked in `data_ch <- ret_str` during iteration `i` -/
  | sendData (i : Int) (ret_str : GoString)
  /-- blocked in `control_ch <- wname` -/
  | sendCtl
  /-- returned -/
  | done
  /-- stopped by a panic -/
  | panicked
  deriving DecidableEq

/-- One step of `worker(data_ch, control_ch, d, wname, limit)` from control point
`ws` with the shared source `seededRand` in state `g`: the next control point, the
state of the source, and the channel send the step completes, if any.  A returned or
panicked worker has no step. -/
def workerStep (wname : GoString) (limit : Int) (ws : WState) (g : RandSrc) :
    Option (WState × RandSrc × Option Send) :=
  match ws with
  | .loop i =>
    if i ≤ limit then
      match RandomNumString g 10 with
      | none => some (.panicked, g, none)
      | some (random_str, g1) => some (.sendData i (formatMsg wname i random_str), g1, none)
    else some (.sendCtl, g, none)
  | .sendData i ret_str => some (.loop (wrapInt (i + 1)), g, some (.data ret_str))
  | .sendCtl => some (.done, g, some (.control wname))
  | .done => none
  | .panicked => none

/-- Run a worker for at most `fuel` steps against receivers that are always ready:
the sends it completed, in order, and where it stands. -/
def workerRun (wname : GoString) (limit : Int) : Nat → WState → RandSrc →
    List Send × WState × RandSrc
  | 0, ws, g => ([], ws, g)
  | fuel + 1, ws, g =>
    match workerStep wname limit ws g with
    | none => ([], ws, g)
    | some (ws1, g1, out) =>
      let r := workerRun wname limit fuel ws1 g1
      (out.toList ++ r.1, r.2)

/-- Source: `worker(data_ch, control_ch, d, wname, limit)` run from its entry. -/
def worker (fuel : Nat) (g : RandSrc) (wname : GoString) (limit : Int) :
    List Send × WState × RandSrc :=
  workerRun wname limit fuel (.loop 0) g

/-! ## conc_channels.go : main, the spawn loop -/

/-- Arguments of one `go worker(data_channel, control_channel, duration_ms,
worker_id, limit)`. -/
structure Spawn where
  worker_id : GoString
  limit : Int
  duration_ms : Int
  deriving DecidableEq

/-- Result of a loop that is run with fuel. -/
inductive Res (α : Type) where
  | ok (a : α)
  | panic
  | fuel

/-- The loop `for i := 0; i <= N; i++ { ... go worker(...) }` of `main`, where `N` is
`Num_workers`, from counter value `i`.  `g` is the state of `seededRand`; `clk k` is
the state that the `k`-th reseeding `rand.Seed(time.Now()...)` gives the global
source, and `t` counts the reseedings so far.  A launched worker sleeps before it
first draws from `seededRand`, so the draws of the loop are consecutive.  Returns the
workers launched, in order. -/
def spawnLoop (N : Int) (clk : Nat → RandSrc) : Nat → Int → RandSrc → Nat →
    Res (List Spawn × RandSrc)
  | 0, _, _, _ => .fuel
  | fuel + 1, i, g, t =>
    if i ≤ N then
      match RandomAlphaCapString g 3 with
      | none => .panic
      | some (worker_id, g1) =>
        match RandomInt (clk t) 20 50 with
        | none => .panic
        | some limit =>
          match RandomInt (clk (t + 1)) 200 500 with
          | none => .panic
          | some ms_coef =>
            match spawnLoop N clk fuel (wrapInt (i + 1)) g1 (t + 2) with
            | .ok (rest, g2) =>
              .ok (⟨worker_id, limit, wrapInt (ms_coef * 1000000)⟩ :: rest, g2)
            | .panic => .panic
            | .fuel => .fuel
    else .ok ([], g)

/-- The spawn loop of `main` as the source runs it: `Num_workers` is 3 and the counter
starts at 0. -/
def mainSpawn (fuel : Nat) (g : RandSrc) (clk : Nat → RandSrc) : Res (List Spawn × RandSrc) :=
  spawnLoop Num_workers clk fuel 0 g 0

/-! ## conc_channels.go : main, the select loop -/

/-- What one `select` of `main` receives. -/
inductive Event where
  | data (str : GoString)
  | control (sname : GoString)
  deriving DecidableEq

/-- State of `main` in its select loop: the counter `N_comp`, the messages sent on
`fanIn_channel` so far, and whether `break loop` has been executed. -/
structure MainState where
  N_comp : Int
  fanIn : List GoString
  exited : Bool
  deriving DecidableEq

/-- State of `main` when it enters the loop: `N_comp = 0`, nothing forwarded. -/
def MainState.init : MainState := ⟨0, [], false⟩

/-- One iteration of the select loop, `N` being `Num_workers`.  The `reader`
goroutine only receives and prints, so the forward `fanIn_channel <- str` is part of
the iteration. -/
def selectStep (N : Int) (st : MainState) : Event → MainState
  | .data str => { st with fanIn := st.fanIn ++ [str] }
  | .control sname =>
    if sname ≠ [] then
      let n := wrapInt (st.N_comp + 1)
      { st with N_comp := n, exited := decide (n = N) }
    else st

/-- The select loop over the events offered to it: it receives until `break loop`. -/
def selectLoop (N : Int) : MainState → List Event → MainState
  | st, [] => st
  | st, ev :: evs => if st.exited then st else selectLoop N (selectStep N st ev) evs

/-- Every state the select loop goes through, the first one included. -/
def reached (N : Int) : MainState → List Event → List MainState
  | st, [] => [st]
  | st, ev :: evs => if st.exited then [st] else st :: reached N (selectStep N st ev) evs

/-- Number of control signals with a non-empty id among the events. -/
def ctlCount : List Event → Nat
  | [] => 0
  | .data _ :: evs => ctlCount evs
  | .control sname :: evs => (if sname ≠ [] then 1 else 0) + ctlCount evs

/-! ## conc_channels.go : the whole program as a transition system -/

/-- A spawned worker goroutine: its arguments and its control point. -/
structure Proc where
  wname : GoString
  limit : Int
  ws : WState
  deriving DecidableEq

/-- Global state: the worker goroutines, the shared source `seededRand`, and `main` in
its select loop.  Channels are unbuffered, so they hold nothing between steps. -/
structure Sys where
  procs : List Proc
  rng : RandSrc
  main : MainState

/-- The event `main` receives when a worker completes a send. -/
def Send.toEvent : Send → Event
  | .data msg => .data msg
  | .control wname => .control wname

/-- Worker `j` takes its next step.  A step that completes a send is a rendezvous with
`main`, which must still be in its select loop and runs one iteration on what it
receives.  `none`: the step is not enabled. -/
def sysStep (s : Sys) (j : Nat) : Option Sys :=
  match s.procs[j]? with
  | none => none
  | some p =>
    match workerStep p.wname p.limit p.ws s.rng with
    | none => none
    | some (ws1, g1, none) =>
      some { s with procs := s.procs.set j { p with ws := ws1 }, rng := g1 }
    | some (ws1, g1, some out) =>
      if s.main.exited then none
      else some { procs := s.procs.set j { p with ws := ws1 }, rng := g1,
                  main := selectStep Num_workers s.main out.toEvent }

/-- A run: the schedule names the worker that moves at each step. -/
def sysRun : Sys → List Nat → Option Sys
  | s, [] => some s
  | s, j :: js =>
    match sysStep s j with
    | none => none
    | some s1 => sysRun s1 js

/-- State of the program when `main` enters its select loop, all workers launched and
none of them started. -/
def sysInit (fuel : Nat) (g : RandSrc) (clk : Nat → RandSrc) : Option Sys :=
  match mainSpawn fuel g clk with
  | .ok (ws, g1) => some ⟨ws.map (fun w => ⟨w.worker_id, w.limit, .loop 0⟩), g1, MainState.init⟩
  | _ => none

/-- Messages that the launched workers send on the data channel when each runs to its
end: `limit + 1` for each. -/
def totalMessages (ws : List Proc) : Int := (ws.map (fun p => p.limit + 1)).sum

/-! ## git_api.go -/

/-- Go `strings.Split(s, sep)` for a one-byte separator: the substrings between the
separators; a string without separator gives the one-element slice of itself. -/
def Split (s : GoString) (sep : UInt8) : List GoString :=
  match s with
  | [] => [[]]
  | c :: cs =>
    if c = sep then [] :: Split cs sep
    else
      match Split cs sep with
      | [] => [[c]]
      | h :: t => (c :: h) :: t

/-- What `main` of git_api.go does that can be observed from outside: it prints the
usage and exits, or it queries the API for a user name. -/
inductive GitAct where
  | printUsage
  | getGitProjectsForUser (name : GoString)
  deriving DecidableEq

/-- The loop `for _, uname := range users` of `main`.  `net name` tells whether the
request and the read of its body succeed; if not, `log.Fatalf` ends the process. -/
def queryLoop (net : GoString → Bool) : List GoString → List GitAct
  | [] => []
  | uname :: rest =>
    if net uname then .getGitProjectsForUser uname :: queryLoop net rest
    else [.getGitProjectsForUser uname]

/-- Source: `main` of git_api.go after `flag.Parse()`, with `nflag` the value of
`flag.NFlag()` and `user` the value of the `--user` flag.  `printUsage` ends with
`os.Exit(1)`. -/
def gitMain (net : GoString → Bool) (nflag : Int) (user : GoString) : List GitAct :=
  if nflag = 0 then [.printUsage]
  else
    let users := Split user 44
    if users.length = 0 then [.printUsage]
    else queryLoop net users

/-! ## LEARN/struct_iterate.go -/

/-- Source: `PersonData`. -/
structure PersonData where
  Name : GoString
  height_inches : Int
  weight_lbs : Int
  deriving DecidableEq

/-- Source: `AllPersonData`. -/
def AllPersonData : List PersonData :=
  [⟨lit "Bill", 72, 170⟩, ⟨lit "Joe", 70, 160⟩, ⟨lit "Bob", 65, 155⟩,
   ⟨lit "Tom", 71, 175⟩, ⟨lit "Fred", 69, 171⟩]

/-- Source: `GetTotalWeight`. -/
def GetTotalWeight (a_data : List PersonData) : Int :=
  a_data.foldl (fun total elem => wrapInt (total + elem.weight_lbs)) 0

/-- Source: `GetTotalHeight`. -/
def GetTotalHeight (a_data : List PersonData) : Int :=
  a_data.foldl (fun total elem => wrapInt (total + elem.height_inches)) 0

/-- Source: `GetTotals`. -/
def GetTotals (a_data : List PersonData) : Int × Int :=
  a_data.foldl
    (fun tot elem => (wrapInt (tot.1 + elem.height_inches), wrapInt (tot.2 + elem.weight_lbs)))
    (0, 0)

/-! ## Closed forms used in the statements -/

/-- The byte that `charset[seededRand.Intn(len(charset))]` selects when the raw value
drawn is the `m`-th of the source. -/
def pick (charset : GoString) (g : RandSrc) (m : Nat) : UInt8 :=
  charset.getD (g m % charset.length) 0

/-- The random string of iteration `m` of a worker that is alone in drawing from the
source `g`: ten digits chosen by the raw values `10 * m, ..., 10 * m + 9`. -/
def payload (g : RandSrc) (m : Nat) : GoString :=
  (List.range 10).map (pick numset (fun n => g (n + 10 * m)))

/-- The indices into `alphacapset` that the raw values `3 * m, 3 * m + 1, 3 * m + 2` of
the source select: the draws behind the id of the `m`-th worker launched. -/
def idDraws (g : RandSrc) (m : Nat) : List Nat :=
  (List.range 3).map (fun k => g (k + 3 * m) % alphacapset.length)

/-- The worker ids that the spawn loop of `main` assigns, in launch order (empty if the
loop does not complete). -/
def spawnIds (fuel : Nat) (g : RandSrc) (clk : Nat → RandSrc) : List GoString :=
  match mainSpawn fuel g clk with
  | .ok (ws, _) => ws.map Spawn.worker_id
  | _ => []

/-- The value `rand.Intn(max-min) + min` for the raw value that the source gives
first. -/
def drawInt (g : RandSrc) (min max : Int) : Int := (g 0 : Int) % (max - min) + min

/-- Arguments of the `m`-th launch of a spawn loop that starts with `seededRand` in state
`g` and whose `k`-th reseeding of the global source gives the state `clk k`. -/
def spawnArgs (g : RandSrc) (clk : Nat → RandSrc) (m : Nat) : Spawn :=
  ⟨(List.range 3).map (pick alphacapset (fun k => g (k + 3 * m))),
   drawInt (clk (2 * m)) 20 50,
   wrapInt (drawInt (clk (2 * m + 1)) 200 500 * 1000000)⟩

/-- The event is a receive on the control channel. -/
def Event.isControl : Event → Bool
  | .data _ => false
  | .control _ => true

/-- The byte is an ASCII decimal digit. -/
def IsDigit (b : UInt8) : Prop := 48 ≤ b ∧ b ≤ 57

instance (b : UInt8) : Decidable (IsDigit b) := by
  unfold IsDigit; infer_instance

end GoRepo

/-! # Theorems -/

namespace GoRepo

set_option maxRecDepth 1000000

/-! ## Integer wrap-around -/

theorem wrapInt_of_isInt {x : Int} (h : IsInt x) : wrapInt x = x := by
  unfold IsInt minInt maxInt at h
  unfold wrapInt
  omega

theorem wrapInt_isInt (x : Int) : IsInt (wrapInt x) := by
  unfold IsInt minInt maxInt wrapInt
  omega

theorem wrapInt_add_left (a b : Int) : wrapInt (wrapInt a + b) = wrapInt (a + b) := by
  unfold wrapInt
  omega

/-! ## struct_iterate.go -/

theorem foldl_wrap_sum {α : Type} (f : α → Int) (a : List α) (x : Int) :
    a.foldl (fun total elem => wrapInt (total + f elem)) (wrapInt x)
      = wrapInt (x + (a.map f).sum) := by
  induction a generalizing x with
  | nil => simp
  | cons e rest ih =>
    simp only [List.foldl_cons, List.map_cons, List.sum_cons]
    rw [wrapInt_add_left, ih]
    congr 1
    ring

theorem GetTotalHeight_eq_sum (a : List PersonData) :
    GetTotalHeight a = wrapInt (a.map PersonData.height_inches).sum := by
  have h := foldl_wrap_sum PersonData.height_inches a 0
  have h0 : wrapInt 0 = 0 := by decide
  rw [h0] at h
  simpa [GetTotalHeight] using h

theorem GetTotalWeight_eq_sum (a : List PersonData) :
    GetTotalWeight a = wrapInt (a.map PersonData.weight_lbs).sum := by
  have h := foldl_wrap_sum PersonData.weight_lbs a 0
  have h0 : wrapInt 0 = 0 := by decide
  rw [h0] at h
  simpa [GetTotalWeight] using h

theorem GetTotals_foldl (a : List PersonData) (h w : Int) :
    a.foldl
      (fun tot elem => (wrapInt (tot.1 + elem.height_inches), wrapInt (tot.2 + elem.weight_lbs)))
      (h, w)
    = (a.foldl (fun total elem => wrapInt (total + elem.height_inches)) h,
       a.foldl (fun total elem => wrapInt (total + elem.weight_lbs)) w) := by
  induction a generalizing h w with
  | nil => rfl
  | cons e rest ih => simp only [List.foldl_cons, ih]

/-- C10. For every list `a_data`, the single pass `GetTotals a_data` is the pair
`(GetTotalHeight a_data, GetTotalWeight a_data)`, height first; each component is the
sum of the field over the list in Go `int` arithmetic, which is the exact sum whenever
that sum is an `int`; for `AllPersonData` the result is `(347, 831)`. -/
theorem GetTotals_eq_pair (a_data : List PersonData) :
    GetTotals a_data = (GetTotalHeight a_data, GetTotalWeight a_data)
    ∧ GetTotals a_data
        = (wrapInt (a_data.map PersonData.height_inches).sum,
           wrapInt (a_data.map PersonData.weight_lbs).sum)
    ∧ (IsInt (a_data.map PersonData.height_inches).sum →
        IsInt (a_data.map PersonData.weight_lbs).sum →
        GetTotals a_data
          = ((a_data.map PersonData.height_inches).sum,
             (a_data.map PersonData.weight_lbs).sum))
    ∧ GetTotals AllPersonData = (347, 831) := by
  have hpair : GetTotals a_data = (GetTotalHeight a_data, GetTotalWeight a_data) := by
    unfold GetTotals GetTotalHeight GetTotalWeight
    exact GetTotals_foldl a_data 0 0
  refine ⟨hpair, ?_, ?_, by decide⟩
  · rw [hpair, GetTotalHeight_eq_sum, GetTotalWeight_eq_sum]
  · intro hh hw
    rw [hpair, GetTotalHeight_eq_sum, GetTotalWeight_eq_sum, wrapInt_of_isInt hh,
      wrapInt_of_isInt hw]

/-! ## conc_channels.go : RandomInt -/

theorem Intn_some (g : RandSrc) {n : Int} (h : 0 < n) :
    Intn g n = some ((g 0 : Int) % n, g.tail) := by
  unfold Intn
  rw [if_neg (by omega)]

theorem RandomInt_in_range (g : RandSrc) (min max : Int) (hmin : IsInt min)
    (hmax : IsInt max) (hlt : min < max) (hfit : max - min ≤ maxInt) :
    ∃ r, RandomInt g min max = some r ∧ min ≤ r ∧ r < max := by
  have hd : IsInt (max - min) := by
    unfold IsInt minInt maxInt at *
    omega
  have h0 : (0 : Int) ≤ (g 0 : Int) % (max - min) := Int.emod_nonneg _ (by omega)
  have h1 : (g 0 : Int) % (max - min) < max - min := Int.emod_lt_of_pos _ (by omega)
  have hr : IsInt ((g 0 : Int) % (max - min) + min) := by
    unfold IsInt minInt maxInt at *
    omega
  refine ⟨(g 0 : Int) % (max - min) + min, ?_, by omega, by omega⟩
  unfold RandomInt
  rw [wrapInt_of_isInt hd, Intn_some g (by omega)]
  simp only [wrapInt_of_isInt hr]

/-- C7 (counterexample). `minInt < 1`, both are values of `int`, and yet
`RandomInt(minInt, 1)` panics for every outcome of the random source: `max - min`
overflows to a negative number, which `rand.Intn` rejects. -/
theorem RandomInt_overflow_panics :
    minInt < 1 ∧ IsInt minInt ∧ IsInt 1 ∧ wrapInt (1 - minInt) = -9223372036854775807
    ∧ ∀ g : RandSrc, RandomInt g minInt 1 = none := by
  refine ⟨by decide, by decide, by decide, by decide, ?_⟩
  intro g
  have h : wrapInt (1 - minInt) = -9223372036854775807 := by decide
  unfold RandomInt Intn
  rw [h]
  rfl

/-- C7 (amended). For all `int` values `min < max` whose difference `max - min` does
not overflow, and every outcome of the random source, `RandomInt(min, max)` does not
panic and returns `r` with `min <= r < max`; in particular the limits that `main`
draws lie in `[20, 50)` and the delay coefficients in `[200, 500)`. -/
theorem RandomInt_range (g : RandSrc) (min max : Int) (hmin : IsInt min)
    (hmax : IsInt max) (hlt : min < max) (hfit : max - min ≤ maxInt) :
    (∃ r, RandomInt g min max = some r ∧ min ≤ r ∧ r < max)
    ∧ (∃ limit, RandomInt g 20 50 = some limit ∧ 20 ≤ limit ∧ limit < 50)
    ∧ (∃ ms_coef, RandomInt g 200 500 = some ms_coef ∧ 200 ≤ ms_coef ∧ ms_coef < 500) :=
  ⟨RandomInt_in_range g min max hmin hmax hlt hfit,
   RandomInt_in_range g 20 50 (by decide) (by decide) (by decide) (by decide),
   RandomInt_in_range g 200 500 (by decide) (by decide) (by decide) (by decide)⟩

/-- Witness of `RandomInt_range` at `min = -5`, `max = 7` and a source whose next raw
value is 40. -/
theorem RandomInt_range_witness :
    IsInt (-5) ∧ IsInt 7 ∧ RandomInt (fun _ => 40) (-5) 7 = some (-1)
    ∧ ((∃ r, RandomInt (fun _ => 40) (-5) 7 = some r ∧ -5 ≤ r ∧ r < 7)
      ∧ (∃ limit, RandomInt (fun _ => 40) 20 50 = some limit ∧ 20 ≤ limit ∧ limit < 50)
      ∧ (∃ ms_coef, RandomInt (fun _ => 40) 200 500 = some ms_coef
          ∧ 200 ≤ ms_coef ∧ ms_coef < 500)) :=
  ⟨by decide, by decide, by decide,
   RandomInt_range (fun _ => 40) (-5) 7 (by decide) (by decide) (by decide) (by decide)⟩

/-! ## conc_channels.go : StringWithCharset -/

theorem byteAt_mod (charset : GoString) (h : charset ≠ []) (v : Nat) :
    byteAt charset ((v : Int) % (charset.length : Int))
      = some (charset.getD (v % charset.length) 0) := by
  have hpos : 0 < charset.length := List.length_pos.mpr h
  have hlt : v % charset.length < charset.length := Nat.mod_lt _ hpos
  have hcast : (v : Int) % (charset.length : Int) = ((v % charset.length : Nat) : Int) := by
    push_cast; rfl
  unfold byteAt
  rw [hcast, if_neg (by omega), Int.toNat_ofNat, List.getElem?_eq_getElem hlt,
    List.getD_eq_getElem _ _ hlt]

theorem fillLoop_eq (charset : GoString) (h : charset ≠ []) (k : Nat) (g : RandSrc) :
    fillLoop charset k g
      = some ((List.range k).map (pick charset g), fun n => g (n + k)) := by
  have hpos : 0 < charset.length := List.length_pos.mpr h
  induction k generalizing g with
  | zero => rfl
  | succ k ih =>
    unfold fillLoop
    rw [Intn_some g (by exact_mod_cast hpos)]
    simp only [byteAt_mod charset h, ih]
    rw [List.range_succ_eq_map]
    simp only [List.map_cons, List.map_map]
    rfl

theorem pick_mem (charset : GoString) (h : charset ≠ []) (g : RandSrc) (m : Nat) :
    pick charset g m ∈ charset := by
  have hpos : 0 < charset.length := List.length_pos.mpr h
  have hlt : g m % charset.length < charset.length := Nat.mod_lt _ hpos
  unfold pick
  rw [List.getD_eq_getElem _ _ hlt]
  exact List.getElem_mem _

theorem StringWithCharset_eq (g : RandSrc) (length : Int) (charset : GoString)
    (hlen : 0 ≤ length) (hcs : charset ≠ []) :
    StringWithCharset g length charset
      = some ((List.range length.toNat).map (pick charset g), fun n => g (n + length.toNat)) := by
  unfold StringWithCharset
  rw [if_neg (by omega), fillLoop_eq charset hcs]

theorem numset_digits : ∀ b ∈ numset, IsDigit b := by decide

theorem numset_ne_nil : numset ≠ [] := by decide

theorem RandomNumString_ten (g : RandSrc) :
    RandomNumString g 10 = some (payload (fun n => g n) 0, fun n => g (n + 10)) := by
  unfold RandomNumString
  rw [StringWithCharset_eq g 10 numset (by decide) numset_ne_nil]
  rfl

theorem payload_digits (g : RandSrc) (m : Nat) :
    (payload g m).length = 10 ∧ ∀ b ∈ payload g m, IsDigit b := by
  unfold payload
  refine ⟨by simp, ?_⟩
  intro b hb
  rw [List.mem_map] at hb
  obtain ⟨k, _, rfl⟩ := hb
  exact numset_digits _ (pick_mem numset numset_ne_nil _ k)

/-- C6. For every length `>= 0`, every non-empty charset and every state of the random
source, `StringWithCharset(length, charset)` does not panic (no index is out of range)
and returns a string of exactly `length` bytes, each of which occurs in `charset`; and
`RandomNumString(10)` always returns exactly 10 decimal digits. -/
theorem StringWithCharset_spec (g : RandSrc) (length : Int) (charset : GoString)
    (hlen : 0 ≤ length) (hcs : charset ≠ []) :
    (∃ s g1, StringWithCharset g length charset = some (s, g1)
        ∧ (s.length : Int) = length ∧ ∀ b ∈ s, b ∈ charset)
    ∧ (∃ s g1, RandomNumString g 10 = some (s, g1)
        ∧ s.length = 10 ∧ ∀ b ∈ s, IsDigit b) := by
  constructor
  · refine ⟨_, _, StringWithCharset_eq g length charset hlen hcs, ?_, ?_⟩
    · simp only [List.length_map, List.length_range]
      exact Int.toNat_of_nonneg hlen
    · intro b hb
      rw [List.mem_map] at hb
      obtain ⟨k, _, rfl⟩ := hb
      exact pick_mem charset hcs g k
  · exact ⟨_, _, RandomNumString_ten g, (payload_digits _ 0).1, (payload_digits _ 0).2⟩

/-- Witness of `StringWithCharset_spec`: length 4 over the charset `"xyz"` with the
source 0, 1, 2, ... gives `"xyzx"`. -/
theorem StringWithCharset_spec_witness :
    (StringWithCharset (fun k => k) 4 (lit "xyz")).map Prod.fst = some (lit "xyzx")
    ∧ ((∃ s g1, StringWithCharset (fun k => k) 4 (lit "xyz") = some (s, g1)
          ∧ (s.length : Int) = 4 ∧ ∀ b ∈ s, b ∈ lit "xyz")
      ∧ (∃ s g1, RandomNumString (fun k => k) 10 = some (s, g1)
          ∧ s.length = 10 ∧ ∀ b ∈ s, IsDigit b)) :=
  ⟨by decide, StringWithCharset_spec (fun k => k) 4 (lit "xyz") (by decide) (by decide)⟩

/-! ## conc_channels.go : worker -/

theorem workerRun_done (wname : GoString) (limit : Int) (fuel : Nat) (g : RandSrc) :
    workerRun wname limit fuel .done g = ([], .done, g) := by
  cases fuel <;> rfl

theorem workerStep_loop_enter (wname : GoString) (limit i : Int) (g : RandSrc)
    (h : i ≤ limit) :
    workerStep wname limit (.loop i) g
      = some (.sendData i (formatMsg wname i (payload g 0)), (fun n => g (n + 10)), none) := by
  unfold workerStep
  simp only [if_pos h, RandomNumString_ten g]

theorem workerStep_loop_leave (wname : GoString) (limit i : Int) (g : RandSrc)
    (h : limit < i) :
    workerStep wname limit (.loop i) g = some (.sendCtl, g, none) := by
  unfold workerStep
  simp only [if_neg (not_le.mpr h)]

theorem payload_shift (g : RandSrc) (m : Nat) :
    payload (fun n => g (n + 10)) m = payload g (m + 1) := by
  unfold payload
  congr 1

theorem workerRun_step (wname : GoString) (limit : Int) (fuel : Nat) (ws ws1 : WState)
    (g g1 : RandSrc) (out : Option Send)
    (h : workerStep wname limit ws g = some (ws1, g1, out)) :
    workerRun wname limit (fuel + 1) ws g
      = (out.toList ++ (workerRun wname limit fuel ws1 g1).1,
         (workerRun wname limit fuel ws1 g1).2) := by
  rw [workerRun, h]

theorem workerStep_sendData (wname : GoString) (limit i : Int) (ret_str : GoString)
    (g : RandSrc) :
    workerStep wname limit (.sendData i ret_str) g
      = some (.loop (wrapInt (i + 1)), g, some (.data ret_str)) := rfl

theorem workerStep_sendCtl (wname : GoString) (limit : Int) (g : RandSrc) :
    workerStep wname limit .sendCtl g = some (.done, g, some (.control wname)) := rfl

theorem workerRun_loop (wname : GoString) (limit : Int) (hlim : limit < maxInt) :
    ∀ (n : Nat) (i : Int) (g : RandSrc) (fuel : Nat),
      0 ≤ i → i + n = limit + 1 → 2 * n + 2 ≤ fuel →
      workerRun wname limit fuel (.loop i) g
        = ((List.range n).map (fun (m : Nat) => Send.data (formatMsg wname (i + m) (payload g m)))
            ++ [Send.control wname], .done, fun k => g (k + 10 * n)) := by
  intro n
  induction n with
  | zero =>
    intro i g fuel _ hin hfuel
    obtain ⟨f, rfl⟩ : ∃ f, fuel = f + 2 := ⟨fuel - 2, by omega⟩
    have hgt : limit < i := by
      simp only [Nat.cast_zero, add_zero] at hin
      omega
    rw [workerRun_step _ _ _ _ _ _ _ _ (workerStep_loop_leave wname limit i g hgt),
      workerRun_step _ _ _ _ _ _ _ _ (workerStep_sendCtl wname limit g), workerRun_done]
    rfl
  | succ n ih =>
    intro i g fuel hi hin hfuel
    obtain ⟨f, rfl⟩ : ∃ f, fuel = f + 2 := ⟨fuel - 2, by omega⟩
    have hle : i ≤ limit := by
      push_cast at hin
      omega
    have hwrap : wrapInt (i + 1) = i + 1 := by
      apply wrapInt_of_isInt
      unfold IsInt minInt
      unfold maxInt at hlim ⊢
      omega
    have hrec := ih (i + 1) (fun k => g (k + 10)) f (by omega)
      (by push_cast at hin; omega) (by omega)
    rw [workerRun_step _ _ _ _ _ _ _ _ (workerStep_loop_enter wname limit i g hle),
      workerRun_step _ _ _ _ _ _ _ _ (workerStep_sendData wname limit i _ _), hwrap, hrec,
      List.range_succ_eq_map]
    simp only [List.map_cons, List.map_map, Option.toList, List.nil_append, List.cons_append,
      List.singleton_append, Nat.cast_zero, add_zero]
    refine Prod.ext ?_ (Prod.ext rfl ?_)
    · simp only [List.cons.injEq, true_and, List.append_cancel_right_eq]
      apply List.map_congr_left
      intro m _
      simp only [Function.comp, payload_shift]
      congr 2
      push_cast
      ring
    · funext k
      show g (k + 10 * n + 10) = g (k + 10 * (n + 1))
      congr 1

/-- States from which a worker whose limit is `maxInt` can never leave its loop. -/
theorem workerRun_maxInt_spins (wname : GoString) (fuel : Nat) :
    ∀ (ws : WState) (g : RandSrc),
      (ws ≠ .sendCtl ∧ ws ≠ .done ∧ ∀ i, ws = .loop i → i ≤ maxInt) →
      ((workerRun wname maxInt fuel ws g).2.1 ≠ .done
        ∧ ∀ s ∈ (workerRun wname maxInt fuel ws g).1, ∃ msg, s = Send.data msg) := by
  induction fuel with
  | zero =>
    intro ws g h
    exact ⟨h.2.1, by simp [workerRun]⟩
  | succ fuel ih =>
    intro ws g h
    cases ws with
    | loop i =>
      have hi : i ≤ maxInt := h.2.2 i rfl
      have hstep := workerStep_loop_enter wname maxInt i g hi
      have hrec := ih (.sendData i (formatMsg wname i (payload g 0))) (fun n => g (n + 10))
        ⟨by simp, by simp, by simp⟩
      rw [workerRun_step _ _ _ _ _ _ _ _ hstep]
      simpa using hrec
    | sendData i ret_str =>
      have hrec := ih (.loop (wrapInt (i + 1))) g
        ⟨by simp, by simp, by
          intro j hj
          cases hj
          exact (wrapInt_isInt _).2⟩
      rw [workerRun_step _ _ _ _ _ _ _ _ (workerStep_sendData wname maxInt i ret_str g)]
      refine ⟨hrec.1, ?_⟩
      intro s hs
      simp only [Option.toList, List.singleton_append, List.mem_cons] at hs
      rcases hs with rfl | hs
      · exact ⟨_, rfl⟩
      · exact hrec.2 s hs
    | sendCtl => exact absurd rfl h.1
    | done => exact absurd rfl h.2.1
    | panicked => exact ⟨by simp [workerRun, workerStep], by simp [workerRun, workerStep]⟩

theorem workerRun_maxInt_length (wname : GoString) (fuel : Nat) :
    (∀ (i : Int) (g : RandSrc), i ≤ maxInt →
        (workerRun wname maxInt fuel (.loop i) g).1.length = fuel / 2)
    ∧ (∀ (i : Int) (ret_str : GoString) (g : RandSrc),
        (workerRun wname maxInt fuel (.sendData i ret_str) g).1.length = (fuel + 1) / 2) := by
  induction fuel with
  | zero => exact ⟨fun _ _ _ => rfl, fun _ _ _ => rfl⟩
  | succ fuel ih =>
    constructor
    · intro i g hi
      rw [workerRun_step _ _ _ _ _ _ _ _ (workerStep_loop_enter wname maxInt i g hi)]
      simpa using ih.2 i _ _
    · intro i ret_str g
      rw [workerRun_step _ _ _ _ _ _ _ _ (workerStep_sendData wname maxInt i ret_str g)]
      have h := ih.1 (wrapInt (i + 1)) g (wrapInt_isInt _).2
      simp only [Option.toList, List.singleton_append, List.length_cons, h]
      omega

/-- C5 (counterexample). `maxInt` is a limit `>= 0`, and for that limit the worker never
gets past its loop: `i <= limit` holds for every `int`, and `i++` wraps around.
However long it runs, with any name and any random source, it keeps sending on the
data channel (one message every two steps), has not returned and has sent nothing on
the control channel. -/
theorem worker_maxInt_never_signals :
    0 ≤ maxInt ∧ IsInt maxInt
    ∧ ∀ (fuel : Nat) (g : RandSrc) (wname : GoString),
        (worker fuel g wname maxInt).2.1 ≠ .done
        ∧ Send.control wname ∉ (worker fuel g wname maxInt).1
        ∧ (worker fuel g wname maxInt).1.length = fuel / 2 := by
  refine ⟨by decide, by decide, ?_⟩
  intro fuel g wname
  have h := workerRun_maxInt_spins wname fuel (.loop 0) g
    ⟨by simp, by simp, by
      intro i hi
      cases hi
      decide⟩
  refine ⟨h.1, ?_, (workerRun_maxInt_length wname fuel).1 0 g (by decide)⟩
  intro hmem
  obtain ⟨msg, hmsg⟩ := h.2 _ hmem
  cases hmsg

/-- C5 (amended). For every worker name `w`, every limit with `0 <= limit < maxInt` and
every state of the random source, a worker given at least `2 * limit + 4` steps
returns, and the sequence of channel sends it has performed is exactly: `limit + 1`
messages on the data channel, the `i`-th (`i = 0, 1, ..., limit`, in this order) being
`[id:w]: msg-i: (r)` with `r` a string of 10 digits, followed by exactly one send of `w`
on the control channel, and nothing after it. -/
theorem worker_sends (fuel : Nat) (g : RandSrc) (wname : GoString) (limit : Int)
    (h0 : 0 ≤ limit) (hmax : limit < maxInt) (hfuel : 2 * limit + 4 ≤ fuel) :
    (worker fuel g wname limit).1
        = (List.range (limit.toNat + 1)).map
            (fun (i : Nat) => Send.data (formatMsg wname i (payload g i)))
          ++ [Send.control wname]
    ∧ (worker fuel g wname limit).2.1 = .done
    ∧ ∀ i, (payload g i).length = 10 ∧ ∀ b ∈ payload g i, IsDigit b := by
  have hrun := workerRun_loop wname limit hmax (limit.toNat + 1) 0 g fuel (le_refl _)
    (by push_cast; omega) (by omega)
  unfold worker
  rw [hrun]
  refine ⟨?_, rfl, payload_digits g⟩
  simp only [zero_add]

/-- Witness of `worker_sends`: worker `"AB"` with limit 1, source 0, 1, 2, ... -/
theorem worker_sends_witness :
    (worker 6 (fun k => k) (lit "AB") 1).1
      = [Send.data (lit "[id:AB]: msg-0: (0123456789)"),
         Send.data (lit "[id:AB]: msg-1: (0123456789)"),
         Send.control (lit "AB")]
    ∧ ((worker 6 (fun k => k) (lit "AB") 1).1
          = (List.range ((1 : Int).toNat + 1)).map
              (fun (i : Nat) => Send.data (formatMsg (lit "AB") i (payload (fun k => k) i)))
            ++ [Send.control (lit "AB")]
      ∧ (worker 6 (fun k => k) (lit "AB") 1).2.1 = .done
      ∧ ∀ i, (payload (fun k => k) i).length = 10
          ∧ ∀ b ∈ payload (fun k => k) i, IsDigit b) :=
  ⟨by decide,
   worker_sends 6 (fun k => k) (lit "AB") 1 (by decide) (by decide) (by decide)⟩

/-! ## conc_channels.go : the select loop of main -/

theorem selectLoop_exited (N : Int) (st : MainState) (evs : List Event)
    (h : st.exited = true) : selectLoop N st evs = st := by
  cases evs with
  | nil => rfl
  | cons ev evs => simp [selectLoop, h]

theorem reached_exited (N : Int) (st : MainState) (evs : List Event)
    (h : st.exited = true) : reached N st evs = [st] := by
  cases evs with
  | nil => rfl
  | cons ev evs => simp [reached, h]

theorem selectLoop_cons (N : Int) (st : MainState) (ev : Event) (evs : List Event)
    (h : st.exited = false) :
    selectLoop N st (ev :: evs) = selectLoop N (selectStep N st ev) evs := by
  simp [selectLoop, h]

theorem reached_cons (N : Int) (st : MainState) (ev : Event) (evs : List Event)
    (h : st.exited = false) :
    reached N st (ev :: evs) = st :: reached N (selectStep N st ev) evs := by
  simp [reached, h]

theorem selectStep_data (N : Int) (st : MainState) (str : GoString) :
    selectStep N st (.data str) = { st with fanIn := st.fanIn ++ [str] } := rfl

theorem selectStep_empty (N : Int) (st : MainState) :
    selectStep N st (.control []) = st := by
  simp [selectStep]

theorem selectStep_signal (N : Int) (st : MainState) (sname : GoString) (h : sname ≠ [])
    (h0 : 0 ≤ st.N_comp) (hlt : st.N_comp < N) (hmax : N ≤ maxInt) :
    selectStep N st (.control sname)
      = { st with N_comp := st.N_comp + 1, exited := decide (st.N_comp + 1 = N) } := by
  have hw : wrapInt (st.N_comp + 1) = st.N_comp + 1 := by
    apply wrapInt_of_isInt
    unfold IsInt minInt
    unfold maxInt at hmax ⊢
    omega
  simp only [selectStep, if_pos h, hw]

/-- The counter and the exit flag after the select loop has been offered `evs`, from any
state in which the loop is still running. -/
theorem selectLoop_spec (N : Int) (hmax : N ≤ maxInt) (evs : List Event) :
    ∀ st : MainState, 0 ≤ st.N_comp → st.N_comp < N → st.exited = false →
      (selectLoop N st evs).N_comp = min N (st.N_comp + ctlCount evs)
      ∧ ((selectLoop N st evs).exited = true ↔ N ≤ st.N_comp + ctlCount evs) := by
  induction evs with
  | nil =>
    intro st _ hlt hex
    simp only [selectLoop, ctlCount, Nat.cast_zero, add_zero, hex]
    constructor
    · rw [min_eq_right (le_of_lt hlt)]
    · constructor
      · intro h; cases h
      · intro h; omega
  | cons ev evs ih =>
    intro st h0 hlt hex
    rw [selectLoop_cons N st ev evs hex]
    cases ev with
    | data str =>
      rw [selectStep_data]
      exact ih _ h0 hlt hex
    | control sname =>
      by_cases hs : sname = []
      · subst hs
        rw [selectStep_empty]
        have := ih st h0 hlt hex
        simpa [ctlCount] using this
      · rw [selectStep_signal N st sname hs h0 hlt hmax]
        have hc : ((ctlCount (Event.control sname :: evs) : Nat) : Int) = 1 + ctlCount evs := by
          simp [ctlCount, hs]
        rw [hc]
        by_cases hN : st.N_comp + 1 = N
        · rw [selectLoop_exited N _ evs (by simp [hN])]
          simp only [hN, decide_True, true_iff]
          constructor
          · rw [min_eq_left (by omega)]
          · omega
        · have := ih { st with N_comp := st.N_comp + 1, exited := decide (st.N_comp + 1 = N) }
            (by show 0 ≤ st.N_comp + 1; omega) (by show st.N_comp + 1 < N; omega)
            (by simp [hN])
          simp only [] at this
          rw [this.1, this.2]
          constructor
          · congr 1; ring
          · constructor <;> intro h <;> omega

/-- Every state the select loop goes through keeps the counter at most `N`, has it equal
to `N` exactly when the loop has exited, and at most one of them has it equal to `N`. -/
theorem reached_spec (N : Int) (hmax : N ≤ maxInt) (evs : List Event) :
    ∀ st : MainState, 0 ≤ st.N_comp → st.N_comp < N → st.exited = false →
      (∀ s ∈ reached N st evs, s.N_comp ≤ N ∧ (s.N_comp = N ↔ s.exited = true))
      ∧ (reached N st evs).countP (fun s => decide (s.N_comp = N))
          = (if N ≤ st.N_comp + ctlCount evs then 1 else 0)
      ∧ (reached N st evs).getLast? = some (selectLoop N st evs) := by
  induction evs with
  | nil =>
    intro st _ hlt hex
    refine ⟨?_, ?_, rfl⟩
    · intro s hs
      simp only [reached, List.mem_singleton] at hs
      subst hs
      refine ⟨le_of_lt hlt, ?_⟩
      simp only [hex]
      constructor
      · intro h; omega
      · intro h; cases h
    · have hne : ¬ st.N_comp = N := by omega
      have hnle : ¬ N ≤ st.N_comp + ((ctlCount [] : Nat) : Int) := by
        simp only [ctlCount, Nat.cast_zero, add_zero]; omega
      simp [reached, hne, hnle]
  | cons ev evs ih =>
    intro st h0 hlt hex
    rw [reached_cons N st ev evs hex, selectLoop_cons N st ev evs hex]
    have hne : ¬ st.N_comp = N := by omega
    have hst : st.N_comp ≤ N ∧ (st.N_comp = N ↔ st.exited = true) := by
      refine ⟨le_of_lt hlt, ?_⟩
      simp only [hex]
      constructor
      · intro h; omega
      · intro h; cases h
    have key : ∀ st1 : MainState, ∀ c : Nat,
        ((0 ≤ st1.N_comp ∧ st1.N_comp < N ∧ st1.exited = false)
          ∨ (st1.N_comp = N ∧ st1.exited = true)) →
        st1.N_comp + (ctlCount evs : Int) = st.N_comp + (c : Int) ∨
          (st1.exited = true ∧ N ≤ st.N_comp + (c : Int)) →
        (∀ s ∈ st :: reached N st1 evs, s.N_comp ≤ N ∧ (s.N_comp = N ↔ s.exited = true))
        ∧ (st :: reached N st1 evs).countP (fun s => decide (s.N_comp = N))
            = (if N ≤ st.N_comp + (c : Int) then 1 else 0)
        ∧ (st :: reached N st1 evs).getLast? = some (selectLoop N st1 evs) := by
      intro st1 c hcase hcount
      rcases hcase with ⟨a0, alt, aex⟩ | ⟨aN, aex⟩
      · obtain ⟨i1, i2, i3⟩ := ih st1 a0 alt aex
        have hc : st1.N_comp + (ctlCount evs : Int) = st.N_comp + (c : Int) := by
          rcases hcount with h | ⟨h, _⟩
          · exact h
          · rw [aex] at h; cases h
        refine ⟨?_, ?_, ?_⟩
        · intro s hs
          rcases List.mem_cons.mp hs with rfl | hs
          · exact hst
          · exact i1 s hs
        · rw [List.countP_cons_of_neg _ _ (by simpa using hne), i2, hc]
        · rw [List.getLast?_cons, i3]
          rfl
      · rw [reached_exited N st1 evs aex, selectLoop_exited N st1 evs aex]
        have hle : N ≤ st.N_comp + (c : Int) := by
          rcases hcount with h | ⟨_, h⟩
          · rw [← h, aN]; omega
          · exact h
        refine ⟨?_, ?_, rfl⟩
        · intro s hs
          simp only [List.mem_cons, List.mem_singleton, List.not_mem_nil, or_false] at hs
          rcases hs with rfl | rfl
          · exact hst
          · exact ⟨le_of_eq aN, by simp [aN, aex]⟩
        · simp [hne, aN, hle]
    cases ev with
    | data str =>
      rw [selectStep_data]
      exact key _ (ctlCount (Event.data str :: evs)) (Or.inl ⟨h0, hlt, hex⟩) (Or.inl rfl)
    | control sname =>
      by_cases hs : sname = []
      · subst hs
        rw [selectStep_empty]
        exact key _ (ctlCount (Event.control [] :: evs)) (Or.inl ⟨h0, hlt, hex⟩)
          (Or.inl (by simp [ctlCount]))
      · rw [selectStep_signal N st sname hs h0 hlt hmax]
        have hc : ((ctlCount (Event.control sname :: evs) : Nat) : Int) = 1 + ctlCount evs := by
          simp [ctlCount, hs]
        by_cases hN : st.N_comp + 1 = N
        · exact key _ _ (Or.inr ⟨hN, by simp [hN]⟩)
            (Or.inr ⟨by simp [hN], by rw [hc]; omega⟩)
        · exact key _ _
            (Or.inl ⟨by show 0 ≤ st.N_comp + 1; omega, by show st.N_comp + 1 < N; omega,
              by simp [hN]⟩)
            (Or.inl (by rw [hc]; show st.N_comp + 1 + _ = _; ring))

theorem ctlCount_eq_countP (evs : List Event)
    (hids : ∀ sname, Event.control sname ∈ evs → sname ≠ []) :
    ctlCount evs = evs.countP Event.isControl := by
  induction evs with
  | nil => rfl
  | cons ev evs ih =>
    have ih1 := ih (fun sname h => hids sname (List.mem_cons_of_mem _ h))
    cases ev with
    | data str => simp [ctlCount, Event.isControl, ih1]
    | control sname =>
      have hs : sname ≠ [] := hids sname (List.mem_cons_self _ _)
      simp [ctlCount, Event.isControl, ih1, hs]
      omega

theorem ctlCount_map_control (sigs : List GoString) :
    ctlCount (sigs.map Event.control) = sigs.countP (fun s => decide (s ≠ [])) := by
  induction sigs with
  | nil => rfl
  | cons s sigs ih =>
    by_cases hs : s = []
    · simp [ctlCount, hs, ih]
    · simp [ctlCount, hs, ih]
      omega

/-- C1. Select loop of `main` as a step function, started with `N_comp = 0`, for
`N >= 1` (an `int`) and any sequence of received events whose control signals carry a
non-empty id.  After any number `k` of offered events the loop has exited exactly when
at least `N` of them were control signals, so it exits right after the `N`-th control
signal and not before; `N_comp` is the number of control signals capped at `N`; in
every state reached `N_comp <= N`, with equality exactly in the exited state, and
that state occurs once if there are `N` control signals and never otherwise. -/
theorem main_loop_exit (N : Int) (evs : List Event) (hN : 1 ≤ N) (hmax : N ≤ maxInt)
    (hids : ∀ sname, Event.control sname ∈ evs → sname ≠ []) :
    (∀ k, ((selectLoop N MainState.init (evs.take k)).exited = true
            ↔ N ≤ ((evs.take k).countP Event.isControl : Int)))
    ∧ (∀ k, (selectLoop N MainState.init (evs.take k)).N_comp
            = min N ((evs.take k).countP Event.isControl : Int))
    ∧ (∀ s ∈ reached N MainState.init evs, s.N_comp ≤ N ∧ (s.N_comp = N ↔ s.exited = true))
    ∧ (reached N MainState.init evs).countP (fun s => decide (s.N_comp = N))
        = (if N ≤ (evs.countP Event.isControl : Int) then 1 else 0)
    ∧ (reached N MainState.init evs).getLast? = some (selectLoop N MainState.init evs) := by
  have htake : ∀ k, ctlCount (evs.take k) = (evs.take k).countP Event.isControl := fun k =>
    ctlCount_eq_countP _ (fun sname h => hids sname (List.mem_of_mem_take h))
  have hloop := fun k => selectLoop_spec N hmax (evs.take k) MainState.init (le_refl _)
    (by show (0 : Int) < N; omega) rfl
  have hre := reached_spec N hmax evs MainState.init (le_refl _)
    (by show (0 : Int) < N; omega) rfl
  have h0 : MainState.init.N_comp = 0 := rfl
  refine ⟨?_, ?_, hre.1, ?_, hre.2.2⟩
  · intro k
    rw [(hloop k).2, h0, zero_add, htake k]
  · intro k
    rw [(hloop k).1, h0, zero_add, htake k]
  · rw [hre.2.1, h0, zero_add, ctlCount_eq_countP evs hids]

/-- Witness of `main_loop_exit` with `N = Num_workers`: two data messages and four
control signals; the loop exits on the third signal and ignores what follows. -/
theorem main_loop_exit_witness :
    (selectLoop Num_workers MainState.init
        [.data (lit "m0"), .control (lit "ABC"), .control (lit "DEF"), .data (lit "m1"),
         .control (lit "GHI"), .control (lit "JKL")])
      = ⟨3, [lit "m0", lit "m1"], true⟩
    ∧ (selectLoop Num_workers MainState.init
        [.data (lit "m0"), .control (lit "ABC"), .control (lit "DEF"), .data (lit "m1")])
      = ⟨2, [lit "m0", lit "m1"], false⟩
    ∧ (reached Num_workers MainState.init
        [.data (lit "m0"), .control (lit "ABC"), .control (lit "DEF"), .data (lit "m1"),
         .control (lit "GHI"), .control (lit "JKL")]).countP
          (fun s => decide (s.N_comp = Num_workers)) = 1 :=
  ⟨by decide, by decide,
   (main_loop_exit Num_workers
      [.data (lit "m0"), .control (lit "ABC"), .control (lit "DEF"), .data (lit "m1"),
       .control (lit "GHI"), .control (lit "JKL")] (by decide) (by decide)
      (by intro sname h hs; subst hs; revert h; decide)).2.2.2.1⟩

/-- C4 (counterexample). With `N = Num_workers = 3`, two completion signals of the same
worker id leave `N_comp = 2` although one distinct id has signalled, and three signals
of that one id make the loop exit. -/
theorem main_loop_double_counts :
    (selectLoop Num_workers MainState.init
        [.control (lit "ABC"), .control (lit "ABC")]).N_comp = 2
    ∧ ([lit "ABC", lit "ABC"] : List GoString).dedup.length = 1
    ∧ (selectLoop Num_workers MainState.init
        [.control (lit "ABC"), .control (lit "ABC"), .control (lit "ABC")])
      = ⟨3, [], true⟩
    ∧ ([lit "ABC", lit "ABC", lit "ABC"] : List GoString).dedup.length = 1 := by
  decide

/-- C4 (amended). The select loop of `main` does not look at which id a completion
signal carries beyond testing that it is non-empty: for `N >= 1` and every sequence of
control signals received, `N_comp` is the number of signals with a non-empty id,
repeated ids counted each time, capped at `N`; the loop has exited exactly when that
number is at least `N`. -/
theorem main_loop_counts_signals (N : Int) (sigs : List GoString) (hN : 1 ≤ N)
    (hmax : N ≤ maxInt) :
    (selectLoop N MainState.init (sigs.map Event.control)).N_comp
        = min N (sigs.countP (fun s => decide (s ≠ [])) : Int)
    ∧ ((selectLoop N MainState.init (sigs.map Event.control)).exited = true
        ↔ N ≤ (sigs.countP (fun s => decide (s ≠ [])) : Int)) := by
  have h := selectLoop_spec N hmax (sigs.map Event.control) MainState.init (le_refl _)
    (by show (0 : Int) < N; omega) rfl
  have h0 : MainState.init.N_comp = 0 := rfl
  rw [h0, zero_add, ctlCount_map_control] at h
  exact h

/-- Witness of `main_loop_counts_signals` with `N = Num_workers`: an empty id is
skipped and a repeated id is counted again. -/
theorem main_loop_counts_signals_witness :
    (selectLoop Num_workers MainState.init
        ([lit "ABC", [], lit "ABC"].map Event.control)).N_comp = 2
    ∧ ((selectLoop Num_workers MainState.init
          ([lit "ABC", [], lit "ABC"].map Event.control)).N_comp
        = min Num_workers
            (([lit "ABC", [], lit "ABC"] : List GoString).countP
              (fun s => decide (s ≠ [])) : Int)
      ∧ ((selectLoop Num_workers MainState.init
            ([lit "ABC", [], lit "ABC"].map Event.control)).exited = true
          ↔ Num_workers ≤ (([lit "ABC", [], lit "ABC"] : List GoString).countP
              (fun s => decide (s ≠ [])) : Int))) :=
  ⟨by decide,
   main_loop_counts_signals Num_workers [lit "ABC", [], lit "ABC"] (by decide) (by decide)⟩

/-! ## conc_channels.go : the spawn loop of main -/

theorem RandomInt_eq (g : RandSrc) (min max : Int) (hmin : IsInt min)
    (hmax : IsInt max) (hlt : min < max) (hfit : max - min ≤ maxInt) :
    RandomInt g min max = some (drawInt g min max) := by
  have hd : IsInt (max - min) := by
    unfold IsInt minInt maxInt at *
    omega
  have h0 : (0 : Int) ≤ (g 0 : Int) % (max - min) := Int.emod_nonneg _ (by omega)
  have h1 : (g 0 : Int) % (max - min) < max - min := Int.emod_lt_of_pos _ (by omega)
  have hr : IsInt ((g 0 : Int) % (max - min) + min) := by
    unfold IsInt minInt maxInt at *
    omega
  unfold RandomInt drawInt
  rw [wrapInt_of_isInt hd, Intn_some g (by omega)]
  simp only [wrapInt_of_isInt hr]

theorem alphacapset_ne_nil : alphacapset ≠ [] := by decide

theorem alphacapset_nodup : alphacapset.Nodup := by decide

theorem RandomAlphaCapString_three (g : RandSrc) :
    RandomAlphaCapString g 3
      = some ((List.range 3).map (pick alphacapset g), fun n => g (n + 3)) := by
  unfold RandomAlphaCapString
  rw [StringWithCharset_eq g 3 alphacapset (by decide) alphacapset_ne_nil]
  rfl

theorem spawnArgs_shift (g : RandSrc) (clk : Nat → RandSrc) (t m : Nat) :
    spawnArgs (fun k => g (k + 3)) (fun k => clk (k + (t + 2))) m
      = spawnArgs g (fun k => clk (k + t)) (m + 1) := by
  have e1 : 2 * m + (t + 2) = 2 * (m + 1) + t := by ring
  have e2 : 2 * m + 1 + (t + 2) = 2 * (m + 1) + 1 + t := by ring
  have e3 : (fun k => g (k + 3 * m + 3)) = (fun k => g (k + 3 * (m + 1))) := by
    funext k
    congr 1
  simp only [spawnArgs, e1, e2, e3]

/-- Closed form of the spawn loop: from counter value `i` with `n` values of the counter
left up to and including `N`, it launches `n` workers. -/
theorem spawnLoop_eq (N : Int) (hN : N < maxInt) (clk : Nat → RandSrc) :
    ∀ (n : Nat) (i : Int) (g : RandSrc) (t fuel : Nat),
      0 ≤ i → i + n = N + 1 → n + 1 ≤ fuel →
      spawnLoop N clk fuel i g t
        = .ok ((List.range n).map (spawnArgs g (fun k => clk (k + t))),
               fun k => g (k + 3 * n)) := by
  intro n
  induction n with
  | zero =>
    intro i g t fuel _ hin hfuel
    obtain ⟨f, rfl⟩ : ∃ f, fuel = f + 1 := ⟨fuel - 1, by omega⟩
    have hgt : ¬ i ≤ N := by
      simp only [Nat.cast_zero, add_zero] at hin
      omega
    rw [spawnLoop, if_neg hgt]
    rfl
  | succ n ih =>
    intro i g t fuel hi hin hfuel
    obtain ⟨f, rfl⟩ : ∃ f, fuel = f + 1 := ⟨fuel - 1, by omega⟩
    have hle : i ≤ N := by
      push_cast at hin
      omega
    have hwrap : wrapInt (i + 1) = i + 1 := by
      apply wrapInt_of_isInt
      unfold IsInt minInt
      unfold maxInt at hN ⊢
      omega
    have hrec := ih (i + 1) (fun k => g (k + 3)) (t + 2) f (by omega)
      (by push_cast at hin; omega) (by omega)
    have hhead : (⟨(List.range 3).map (pick alphacapset g), drawInt (clk t) 20 50,
        wrapInt (drawInt (clk (t + 1)) 200 500 * 1000000)⟩ : Spawn)
          = spawnArgs g (fun k => clk (k + t)) 0 := by
      simp only [spawnArgs, Nat.mul_zero, Nat.zero_add, Nat.add_zero]
      have : 1 + t = t + 1 := by ring
      rw [this]
    rw [spawnLoop, if_pos hle, RandomAlphaCapString_three]
    simp only [RandomInt_eq (clk t) 20 50 (by decide) (by decide) (by decide) (by decide),
      RandomInt_eq (clk (t + 1)) 200 500 (by decide) (by decide) (by decide) (by decide),
      hwrap, hrec, hhead]
    rw [List.range_succ_eq_map, List.map_cons, List.map_map]
    congr 2
    congr 1
    apply List.map_congr_left
    intro m _
    exact spawnArgs_shift g clk t m

theorem mainSpawn_eq (fuel : Nat) (g : RandSrc) (clk : Nat → RandSrc) :
    mainSpawn (fuel + 5) g clk
      = .ok ((List.range 4).map (spawnArgs g clk), fun k => g (k + 12)) := by
  unfold mainSpawn
  exact spawnLoop_eq Num_workers (by decide) clk 4 0 g 0 (fuel + 5) (le_refl _) (by decide)
    (by omega)

/-- C2 (the code at every input). Whatever the random sources give, the spawn loop of
`main` completes and performs `Num_workers + 1 = 4` launches `go worker(...)`, one more
than `Num_workers = 3`: the loop test is `i <= Num_workers` with `i` starting at 0. -/
theorem mainSpawn_launches_four (fuel : Nat) (g : RandSrc) (clk : Nat → RandSrc) :
    ∃ ws g1, mainSpawn (fuel + 5) g clk = .ok (ws, g1)
      ∧ (ws.length : Int) = Num_workers + 1 ∧ (ws.length : Int) ≠ Num_workers := by
  refine ⟨_, _, mainSpawn_eq fuel g clk, ?_, ?_⟩ <;> simp [Num_workers]

theorem spawnIds_eq (fuel : Nat) (g : RandSrc) (clk : Nat → RandSrc) :
    spawnIds (fuel + 5) g clk
      = ((List.range 4).map (idDraws g)).map (fun l => l.map (fun a => alphacapset.getD a 0)) := by
  unfold spawnIds
  rw [mainSpawn_eq]
  simp only [List.map_map]
  apply List.map_congr_left
  intro m _
  simp only [Function.comp, idDraws, spawnArgs, List.map_map]
  rfl

theorem idDraws_lt (g : RandSrc) (m : Nat) : ∀ a ∈ idDraws g m, a < alphacapset.length := by
  intro a ha
  unfold idDraws at ha
  rw [List.mem_map] at ha
  obtain ⟨k, _, rfl⟩ := ha
  exact Nat.mod_lt _ (by decide)

theorem map_getD_injOn (cs : GoString) (hcs : cs.Nodup) :
    ∀ l1 l2 : List Nat, (∀ a ∈ l1, a < cs.length) → (∀ a ∈ l2, a < cs.length) →
      l1.map (fun a => cs.getD a 0) = l2.map (fun a => cs.getD a 0) → l1 = l2 := by
  intro l1
  induction l1 with
  | nil =>
    intro l2 _ _ h
    cases l2 with
    | nil => rfl
    | cons b l2 => simp at h
  | cons a l1 ih =>
    intro l2 h1 h2 h
    cases l2 with
    | nil => simp at h
    | cons b l2 =>
      simp only [List.map_cons, List.cons.injEq] at h
      have ha : a < cs.length := h1 a (List.mem_cons_self _ _)
      have hb : b < cs.length := h2 b (List.mem_cons_self _ _)
      have hab : a = b := by
        have := h.1
        rw [List.getD_eq_getElem _ _ ha, List.getD_eq_getElem _ _ hb] at this
        exact (List.Nodup.getElem_inj_iff hcs).mp this
      rw [hab, ih l2 (fun x hx => h1 x (List.mem_cons_of_mem _ hx))
        (fun x hx => h2 x (List.mem_cons_of_mem _ hx)) h.2]

/-- C8 (counterexample). With a random source that keeps giving the raw value 0, every
worker launched by `main` gets the id `"AAA"`: the ids are not pairwise distinct. -/
theorem spawnIds_collide :
    spawnIds 5 (fun _ => 0) (fun _ _ => 0) = [lit "AAA", lit "AAA", lit "AAA", lit "AAA"]
    ∧ ¬ (spawnIds 5 (fun _ => 0) (fun _ _ => 0)).Nodup := by
  decide

/-- C8 (amended). For every outcome of the random source, each worker id that `main`
assigns is a string of 3 letters of `A..Z`, selected by three consecutive draws of
`seededRand`; the ids assigned in one run are pairwise distinct exactly when the
triples of draws (modulo 26) behind them are pairwise distinct. -/
theorem spawnIds_spec (fuel : Nat) (g : RandSrc) (clk : Nat → RandSrc) :
    (∀ id ∈ spawnIds (fuel + 5) g clk, id.length = 3 ∧ ∀ b ∈ id, b ∈ alphacapset)
    ∧ ((spawnIds (fuel + 5) g clk).Nodup
        ↔ ((List.range (spawnIds (fuel + 5) g clk).length).map (idDraws g)).Nodup) := by
  rw [spawnIds_eq]
  constructor
  · intro id hid
    simp only [List.map_map, List.mem_map, List.mem_range, Function.comp] at hid
    obtain ⟨m, _, rfl⟩ := hid
    refine ⟨by simp [idDraws], ?_⟩
    intro b hb
    rw [List.mem_map] at hb
    obtain ⟨a, ha, rfl⟩ := hb
    rw [List.getD_eq_getElem _ _ (idDraws_lt g m a ha)]
    exact List.getElem_mem _
  · simp only [List.length_map, List.length_range]
    constructor
    · exact List.Nodup.of_map _
    · intro h
      apply List.Nodup.map_on _ h
      intro l1 h1 l2 h2 heq
      rw [List.mem_map] at h1 h2
      obtain ⟨m1, _, rfl⟩ := h1
      obtain ⟨m2, _, rfl⟩ := h2
      exact map_getD_injOn alphacapset alphacapset_nodup _ _ (idDraws_lt g m1)
        (idDraws_lt g m2) heq

/-! ## conc_channels.go : a run of the whole program -/

/-- C3 (the code at a failing run). The random sources give the four launched workers the
ids `ABC`, `DEF`, `GHI`, `JKL`, the limits 20, 20, 20, 49 and the delays 200, 200, 200,
499 ms.  Schedule: the fourth worker sends 8 messages, then the first three run to
their end.  On the third completion signal `main` leaves its loop: it has forwarded 71
messages, the launched workers were to send `21 + 21 + 21 + 50 = 113`, and the fourth
worker stands at iteration 8 of its loop. -/
theorem run_exits_before_last_worker :
    ((sysInit 5 (fun k => k) (fun k _ => if k = 6 then 29 else if k = 7 then 299 else 0)).map
        (fun s => s.procs))
      = some [⟨lit "ABC", 20, .loop 0⟩, ⟨lit "DEF", 20, .loop 0⟩, ⟨lit "GHI", 20, .loop 0⟩,
              ⟨lit "JKL", 49, .loop 0⟩]
    ∧ ((sysInit 5 (fun k => k) (fun k _ => if k = 6 then 29 else if k = 7 then 299 else 0)).bind
          (fun s => sysRun s (List.replicate 16 3 ++ List.replicate 44 0
            ++ List.replicate 44 1 ++ List.replicate 44 2))).map
        (fun s => (s.main.exited, s.main.N_comp, s.main.fanIn.length, totalMessages s.procs,
          s.procs.map Proc.ws))
      = some (true, 3, 71, 113, [.done, .done, .done, .loop 8]) := by
  decide

/-! ## git_api.go -/

theorem Split_length_pos (s : GoString) (sep : UInt8) : 0 < (Split s sep).length := by
  induction s with
  | nil => simp [Split]
  | cons c cs ih =>
    unfold Split
    split
    · simp
    · split
      · simp
      · simp

/-- C9 (the code at the failing input). `strings.Split` never returns an empty slice, so
the guard `len(users) == 0` never holds; with one flag other than the user flag set
(`-d 1`: `flag.NFlag()` is 1 and `user` is empty) `main` does not print the usage and
calls `getGitProjectsForUser("")`. -/
theorem gitMain_empty_user_queries :
    (∀ user : GoString, (Split user 44).length ≠ 0)
    ∧ Split [] 44 = [[]]
    ∧ ∀ net : GoString → Bool, gitMain net 1 [] = [GitAct.getGitProjectsForUser []] := by
  refine ⟨fun user => Nat.pos_iff_ne_zero.mp (Split_length_pos user 44), rfl, ?_⟩
  intro net
  cases h : net [] <;> simp [gitMain, Split, queryLoop, h]

end GoRepo
